import Mathlib

/-!
Shallow embedding of the market heatmap layout engine of the MCA repository.

The embedded code is the categorized treemap component (the file that groups
market items by sector, sorts them, computes percentage widths and colors)
together with the recharts-based MarketMap component (its color mapper and
tooltip).  JavaScript numbers are modelled by `JNum`: either NaN or an exact
rational; every comparison the embedded code performs (`>` against a literal
and `===` against a literal) is modelled with the JavaScript semantics, where
any comparison involving NaN is false.  JavaScript object key enumeration is
modelled as insertion order (all sector keys in scope are non-integer-like
strings), and the stable Array.prototype.sort is modelled by insertion sort,
which produces the unique stable order for a consistent comparator.
-/

/-- A JavaScript number as the embedded code observes it: NaN or a rational. -/
inductive JNum where
  | nan : JNum
  | num : ℚ → JNum
deriving Repr, DecidableEq

/-- JavaScript comparison `x > c` for a numeric literal c: false on NaN. -/
def JNum.gtQ : JNum → ℚ → Bool
  | .nan, _ => false
  | .num x, c => decide (c < x)

/-- JavaScript strict equality `x === c` for a numeric literal c: false on NaN. -/
def JNum.eqQ : JNum → ℚ → Bool
  | .nan, _ => false
  | .num x, c => decide (x = c)

/-- One market item, as in the MarketMapProps data interface of the
categorized component: ticker, change_percent, price, weight, optional
sector.  An absent (undefined) sector is `none`. -/
structure MarketItem where
  ticker : String
  change_percent : JNum
  price : ℚ
  weight : ℚ
  sector : Option String
deriving Repr, DecidableEq

/-- The five color buckets named by the comments next to getBgColor in the
source: Strong Buy, Standard Green, Neutral, Standard Red, Strong Sell. -/
inductive ColorBucket where
  | strongPos
  | pos
  | neutral
  | neg
  | strongNeg
deriving Repr, DecidableEq

/-- getBgColor from the categorized component, byte for byte the same
branch structure: percent > 3, percent > 0, percent === 0, percent > -3,
else.  Returns the tailwind class string the code returns. -/
def getBgColor (percent : JNum) : String :=
  if percent.gtQ 3 then "bg-[#0a4d3c]"
  else if percent.gtQ 0 then "bg-[#147a61]"
  else if percent.eqQ 0 then "bg-[#2d3748]"
  else if percent.gtQ (-3) then "bg-[#82202b]"
  else "bg-[#5c131a]"

/-- The bucket each getBgColor class string denotes, read off the comments
in the source: dark green = Strong Buy, standard green, gray = Neutral,
standard red, dark red = Strong Sell. -/
def finvizBucket (c : String) : ColorBucket :=
  if c = "bg-[#0a4d3c]" then .strongPos
  else if c = "bg-[#147a61]" then .pos
  else if c = "bg-[#2d3748]" then .neutral
  else if c = "bg-[#82202b]" then .neg
  else .strongNeg

/-- The color chain of CustomizedContent in the recharts MarketMap:
an undefined change_percent is coerced to 0 first, then the seven-band
if/else chain runs. -/
def customizedBg (change? : Option JNum) : String :=
  let percent := change?.getD (.num 0)
  if percent.gtQ 3 then "#059669"
  else if percent.gtQ 1 then "#10B981"
  else if percent.gtQ 0 then "#34D399"
  else if percent.eqQ 0 then "#4B5563"
  else if percent.gtQ (-1) then "#F87171"
  else if percent.gtQ (-3) then "#EF4444"
  else "#DC2626"

/-- The bucket each CustomizedContent hex denotes: emerald-600 is the
strong-positive band, emerald-500 and emerald-400 the positive bands,
gray-600 neutral, red-400 and red-500 the negative bands, red-600 the
strong-negative band. -/
def rechartsBucket (c : String) : ColorBucket :=
  if c = "#059669" then .strongPos
  else if c = "#10B981" then .pos
  else if c = "#34D399" then .pos
  else if c = "#4B5563" then .neutral
  else if c = "#F87171" then .neg
  else if c = "#EF4444" then .neg
  else .strongNeg

/-- The grouping key of the forEach loop: item.sector || "Others".  The
JavaScript truthiness test sends both an absent sector and the empty
string to "Others". -/
def sectorKey (i : MarketItem) : String :=
  match i.sector with
  | none => "Others"
  | some s => if s = "" then "Others" else s

/-- One sector bucket: the entry sectors[s] (member items in push order)
together with the running accumulator sectorWeights[s]. -/
structure Bucket where
  name : String
  items : List MarketItem
  weight : ℚ
deriving Repr, DecidableEq

/-- One step of the grouping loop: push item i under key k.  A fresh key
appends a new bucket at the end (JavaScript object string keys enumerate
in insertion order); an existing key appends the item to that bucket and
adds its weight to the accumulator. -/
def insertItem : List Bucket → String → MarketItem → List Bucket
  | [], k, i => [⟨k, [i], i.weight⟩]
  | b :: rest, k, i =>
    if b.name = k then ⟨b.name, b.items ++ [i], b.weight + i.weight⟩ :: rest
    else b :: insertItem rest k i

/-- The grouping forEach of the categorized component: fold the data in
order, pushing each item under sectorKey. -/
def groupBySector (data : List MarketItem) : List Bucket :=
  data.foldl (fun acc i => insertItem acc (sectorKey i) i) []

/-- The sector comparator (a, b) => sectorWeights[b] - sectorWeights[a]:
a precedes b exactly when a has at least b's weight (descending; a stable
sort keeps insertion order on ties). -/
def rSec (a b : Bucket) : Prop := b.weight ≤ a.weight

/-- The member comparator (a, b) => b.weight - a.weight inside a sector. -/
def rItem (a b : MarketItem) : Prop := b.weight ≤ a.weight

instance : DecidableRel rSec := fun a b => inferInstanceAs (Decidable (b.weight ≤ a.weight))

instance : DecidableRel rItem := fun a b => inferInstanceAs (Decidable (b.weight ≤ a.weight))

instance : IsTotal Bucket rSec := ⟨fun a b => le_total b.weight a.weight⟩

instance : IsTrans Bucket rSec := ⟨fun _ _ _ h h' => le_trans h' h⟩

instance : IsTotal MarketItem rItem := ⟨fun a b => le_total b.weight a.weight⟩

instance : IsTrans MarketItem rItem := ⟨fun _ _ _ h h' => le_trans h' h⟩

/-- One rendered stock cell: the per-item style the inner map emits
(width percent relative to the sector, flexGrow, background class). -/
structure ItemCell where
  ticker : String
  widthPercent : ℚ
  flexGrow : ℚ
  color : String
deriving Repr, DecidableEq

/-- One rendered sector box: the per-sector style of the outer map
(cssWidthPercent is sectorWidthPercent * 1.5 as the style attribute
applies it, flexGrow is the sector total weight). -/
structure SectorBox where
  name : String
  cssWidthPercent : ℚ
  flexGrow : ℚ
  cells : List ItemCell
deriving Repr, DecidableEq

/-- totalMarketWeight: the reduce over Object.values(sectorWeights). -/
def totalMarketWeight (data : List MarketItem) : ℚ :=
  ((groupBySector data).map Bucket.weight).sum

/-- The rendered tree of the categorized component for non-empty data:
sectors stably sorted descending by total weight, each with its members
stably sorted descending by weight, widths and colors as the style
attributes compute them. -/
def buildBoxes (data : List MarketItem) : List SectorBox :=
  let buckets := groupBySector data
  let total := totalMarketWeight data
  (List.insertionSort rSec buckets).map (fun b =>
    { name := b.name
      cssWidthPercent := b.weight / total * 100 * (3 / 2)
      flexGrow := b.weight
      cells := (List.insertionSort rItem b.items).map (fun i =>
        { ticker := i.ticker
          widthPercent := i.weight / b.weight * 100
          flexGrow := i.weight
          color := getBgColor i.change_percent }) })

/-- What the component returns: the no-data banner or the sector tree. -/
inductive RenderResult where
  | noData
  | tree (boxes : List SectorBox)
deriving Repr, DecidableEq

/-- The categorized MarketMap component: absent or empty data renders the
no-data banner, any non-empty data renders the sector tree. -/
def marketMap : Option (List MarketItem) → RenderResult
  | none => .noData
  | some [] => .noData
  | some (i :: rest) => .tree (buildBoxes (i :: rest))

/-- Scratch check of the end-to-end example shape. -/
def exTech : MarketItem :=
  ⟨"AAPL", .num 2, 190, 60, some "Tech"⟩

def exEnergy : MarketItem :=
  ⟨"XOM", .num (-1), 110, 40, some "Energy"⟩

example : (groupBySector [exTech, exEnergy]).map Bucket.name = ["Tech", "Energy"] := by
  decide

example : totalMarketWeight [exTech, exEnergy] = 100 := by
  simp [totalMarketWeight, groupBySector, insertItem, sectorKey, exTech, exEnergy]
  norm_num

example : (buildBoxes [exTech, exEnergy]).map SectorBox.cssWidthPercent = [90, 60] := by
  simp [buildBoxes, totalMarketWeight, groupBySector, insertItem, sectorKey,
    List.insertionSort, List.orderedInsert, rSec, exTech, exEnergy]
  norm_num

example : getBgColor .nan = "bg-[#5c131a]" := by decide

/-- One datum of the recharts MarketMap data interface: ticker (copied
into name by the treeData transform), change_percent, price, weight.
There is no sector field in this interface. -/
structure RechartsDatum where
  name : String
  change_percent : JNum
  price : ℚ
  weight : ℚ
deriving Repr, DecidableEq

/-- One paragraph of the tooltip body in the recharts MarketMap: the bold
name line, the price line, and the change line. -/
inductive TooltipLine where
  | title (text : String)
  | priceLine (value : ℚ)
  | changeLine (value : JNum)
deriving Repr, DecidableEq

/-- The Tooltip content callback: when the payload is present and
non-empty it renders, from the first payload entry, exactly the name,
price, and change paragraphs; otherwise it returns null. -/
def tooltipContent : Option (List RechartsDatum) → Option (List TooltipLine)
  | some (d :: _) =>
    some [.title d.name, .priceLine d.price, .changeLine d.change_percent]
  | _ => none

/-- The observable state of one render pass of the categorized component:
the caller's data array, the engine-owned sectors object, and the
rendered result.  Mutating array operations in the source act on the
field that holds the array they mutate. -/
structure ComponentRun where
  data : List MarketItem
  sectors : List Bucket
  rendered : RenderResult
deriving Repr, DecidableEq

/-- The render pass as explicit state passing. The grouping forEach reads
data and writes the engine-owned sectors object; the in-place sorts of
the sector name list and of each sectors[s] array write engine-owned
arrays (the sectors field); no step writes the data field. -/
def runLayoutPass (callerData : List MarketItem) : ComponentRun :=
  let s0 : ComponentRun := ⟨callerData, [], .noData⟩
  let s1 : ComponentRun :=
    { s0 with sectors := s0.data.foldl (fun acc i => insertItem acc (sectorKey i) i) [] }
  let sortedSecs : List Bucket :=
    (List.insertionSort rSec s1.sectors).map
      (fun b => { b with items := List.insertionSort rItem b.items })
  let s2 : ComponentRun := { s1 with sectors := sortedSecs }
  { s2 with rendered := marketMap (some s2.data) }

/-- Invariant of the grouping loop state: bucket names are pairwise
distinct, each accumulator equals the sum of the member weights, and
every member item keys to its bucket's name. -/
def GroupWF (bs : List Bucket) : Prop :=
  (bs.map Bucket.name).Nodup ∧
    ∀ b ∈ bs, b.weight = (b.items.map MarketItem.weight).sum ∧
      ∀ j ∈ b.items, sectorKey j = b.name

lemma insertItem_name_mem (bs : List Bucket) (k : String) (i : MarketItem) (x : String) :
    x ∈ (insertItem bs k i).map Bucket.name ↔ x ∈ bs.map Bucket.name ∨ x = k := by
  induction bs with
  | nil => simp [insertItem]
  | cons b rest ih =>
    by_cases hb : b.name = k
    · have hrw : insertItem (b :: rest) k i
          = ⟨b.name, b.items ++ [i], b.weight + i.weight⟩ :: rest := by
        simp [insertItem, hb]
      rw [hrw]
      simp only [List.map_cons, List.mem_cons]
      constructor
      · rintro (h1 | h1)
        · exact Or.inl (Or.inl h1)
        · exact Or.inl (Or.inr h1)
      · rintro ((h1 | h1) | h1)
        · exact Or.inl h1
        · exact Or.inr h1
        · exact Or.inl (h1.trans hb.symm)
    · have hrw : insertItem (b :: rest) k i = b :: insertItem rest k i := by
        simp [insertItem, hb]
      rw [hrw]
      simp only [List.map_cons, List.mem_cons, ih]
      tauto

lemma insertItem_groupWF (bs : List Bucket) (i : MarketItem) (h : GroupWF bs) :
    GroupWF (insertItem bs (sectorKey i) i) := by
  induction bs with
  | nil =>
    refine ⟨by simp [insertItem], ?_⟩
    intro b hb
    simp only [insertItem, List.mem_singleton] at hb
    subst hb
    exact ⟨by simp, by simp⟩
  | cons b rest ih =>
    obtain ⟨hnd, hall⟩ := h
    rw [List.map_cons, List.nodup_cons] at hnd
    have hwfrest : GroupWF rest := ⟨hnd.2, fun c hc => hall c (List.mem_cons_of_mem _ hc)⟩
    by_cases hb : b.name = sectorKey i
    · have hrw : insertItem (b :: rest) (sectorKey i) i
          = ⟨b.name, b.items ++ [i], b.weight + i.weight⟩ :: rest := by
        simp [insertItem, hb]
      rw [hrw]
      refine ⟨?_, ?_⟩
      · rw [List.map_cons, List.nodup_cons]
        exact ⟨hnd.1, hnd.2⟩
      · intro c hc
        rcases List.mem_cons.mp hc with hc | hc
        · subst hc
          obtain ⟨hw, hk⟩ := hall b (List.mem_cons_self _ _)
          refine ⟨by simp [hw], ?_⟩
          intro j hj
          rcases List.mem_append.mp hj with hj | hj
          · exact hk j hj
          · rw [List.mem_singleton] at hj
            subst hj
            exact hb.symm
        · exact hall c (List.mem_cons_of_mem _ hc)
    · have hrw : insertItem (b :: rest) (sectorKey i) i
          = b :: insertItem rest (sectorKey i) i := by
        simp [insertItem, hb]
      rw [hrw]
      obtain ⟨ihnd, ihall⟩ := ih hwfrest
      refine ⟨?_, ?_⟩
      · rw [List.map_cons, List.nodup_cons]
        refine ⟨?_, ihnd⟩
        intro hmem
        rcases (insertItem_name_mem rest (sectorKey i) i b.name).mp hmem with h1 | h1
        · exact hnd.1 h1
        · exact hb h1
      · intro c hc
        rcases List.mem_cons.mp hc with hc | hc
        · subst hc
          exact hall c (List.mem_cons_self _ _)
        · exact ihall c hc

lemma insertItem_self_mem (bs : List Bucket) (k : String) (i : MarketItem) :
    ∃ b ∈ insertItem bs k i, i ∈ b.items ∧ b.name = k := by
  induction bs with
  | nil => exact ⟨⟨k, [i], i.weight⟩, by simp [insertItem]⟩
  | cons b rest ih =>
    by_cases hb : b.name = k
    · refine ⟨⟨b.name, b.items ++ [i], b.weight + i.weight⟩, ?_, by simp, hb⟩
      simp [insertItem, hb]
    · obtain ⟨c, hc, hci, hck⟩ := ih
      exact ⟨c, by simp [insertItem, hb, hc], hci, hck⟩

lemma insertItem_mem_mono (bs : List Bucket) (k : String) (i j : MarketItem) (n : String)
    (h : ∃ b ∈ bs, j ∈ b.items ∧ b.name = n) :
    ∃ b ∈ insertItem bs k i, j ∈ b.items ∧ b.name = n := by
  induction bs with
  | nil => simp at h
  | cons b rest ih =>
    obtain ⟨c, hc, hci, hcn⟩ := h
    by_cases hb : b.name = k
    · rcases List.mem_cons.mp hc with hc | hc
      · subst hc
        refine ⟨⟨c.name, c.items ++ [i], c.weight + i.weight⟩, ?_, by simp [hci], hcn⟩
        simp [insertItem, hb]
      · exact ⟨c, by simp [insertItem, hb, hc], hci, hcn⟩
    · rcases List.mem_cons.mp hc with hc | hc
      · subst hc
        exact ⟨c, by simp [insertItem, hb], hci, hcn⟩
      · obtain ⟨d, hd, hdi, hdn⟩ := ih ⟨c, hc, hci, hcn⟩
        exact ⟨d, by simp [insertItem, hb, hd], hdi, hdn⟩

lemma foldl_groupWF (data : List MarketItem) (acc : List Bucket) (h : GroupWF acc) :
    GroupWF (data.foldl (fun acc i => insertItem acc (sectorKey i) i) acc) := by
  induction data generalizing acc with
  | nil => exact h
  | cons x xs ih => exact ih _ (insertItem_groupWF acc x h)

lemma foldl_mem_bucket (data : List MarketItem) (acc : List Bucket) (j : MarketItem)
    (h : (∃ b ∈ acc, j ∈ b.items ∧ b.name = sectorKey j) ∨ j ∈ data) :
    ∃ b ∈ data.foldl (fun acc i => insertItem acc (sectorKey i) i) acc,
      j ∈ b.items ∧ b.name = sectorKey j := by
  induction data generalizing acc with
  | nil =>
    rcases h with h | h
    · exact h
    · simp at h
  | cons x xs ih =>
    rcases h with h | h
    · exact ih _ (Or.inl (insertItem_mem_mono acc (sectorKey x) x j (sectorKey j) h))
    · rcases List.mem_cons.mp h with h | h
      · subst h
        exact ih _ (Or.inl (insertItem_self_mem acc (sectorKey j) j))
      · exact ih _ (Or.inr h)

lemma groupBySector_groupWF (data : List MarketItem) : GroupWF (groupBySector data) :=
  foldl_groupWF data [] ⟨by simp, by simp⟩

lemma groupBySector_mem (data : List MarketItem) (j : MarketItem) (h : j ∈ data) :
    ∃ b ∈ groupBySector data, j ∈ b.items ∧ b.name = sectorKey j :=
  foldl_mem_bucket data [] j (Or.inr h)

lemma groupBySector_unique (data : List MarketItem) (j : MarketItem)
    (b b' : Bucket) (hb : b ∈ groupBySector data) (hb' : b' ∈ groupBySector data)
    (hj : j ∈ b.items) (hj' : j ∈ b'.items) : b = b' := by
  obtain ⟨hnd, hall⟩ := groupBySector_groupWF data
  have h1 : b.name = sectorKey j := ((hall b hb).2 j hj).symm
  have h2 : b'.name = sectorKey j := ((hall b' hb').2 j hj').symm
  exact List.inj_on_of_nodup_map hnd hb hb' (h1.trans h2.symm)

lemma getBgColor_strongPos (x : ℚ) (h : 3 < x) :
    getBgColor (.num x) = "bg-[#0a4d3c]" := by
  simp [getBgColor, JNum.gtQ, h]

lemma getBgColor_posBand (x : ℚ) (h1 : 0 < x) (h2 : x ≤ 3) :
    getBgColor (.num x) = "bg-[#147a61]" := by
  have h3 : ¬(3 < x) := not_lt.mpr h2
  simp [getBgColor, JNum.gtQ, h1, h3]

lemma getBgColor_neutral (x : ℚ) (h : x = 0) :
    getBgColor (.num x) = "bg-[#2d3748]" := by
  subst h
  norm_num [getBgColor, JNum.gtQ, JNum.eqQ]

lemma getBgColor_negBand (x : ℚ) (h1 : -3 < x) (h2 : x < 0) :
    getBgColor (.num x) = "bg-[#82202b]" := by
  have h3 : ¬(3 < x) := by linarith
  have h4 : ¬(0 < x) := by linarith
  have h5 : ¬(x = 0) := ne_of_lt h2
  simp [getBgColor, JNum.gtQ, JNum.eqQ, h1, h3, h4, h5]

lemma getBgColor_strongNeg (x : ℚ) (h : x ≤ -3) :
    getBgColor (.num x) = "bg-[#5c131a]" := by
  have h3 : ¬(3 < x) := by linarith
  have h4 : ¬(0 < x) := by linarith
  have h5 : ¬(x = 0) := by intro h0; rw [h0] at h; norm_num at h
  have h6 : ¬(-3 < x) := not_lt.mpr h
  simp [getBgColor, JNum.gtQ, JNum.eqQ, h3, h4, h5, h6]

lemma customizedBg_strongPos (x : ℚ) (h : 3 < x) :
    customizedBg (some (.num x)) = "#059669" := by
  simp [customizedBg, JNum.gtQ, h]

lemma customizedBg_posBand (x : ℚ) (h1 : 0 < x) (h2 : x ≤ 3) :
    rechartsBucket (customizedBg (some (.num x))) = .pos := by
  have h3 : ¬(3 < x) := not_lt.mpr h2
  by_cases h4 : 1 < x
  · have : customizedBg (some (.num x)) = "#10B981" := by
      simp [customizedBg, JNum.gtQ, h3, h4]
    rw [this]
    decide
  · have : customizedBg (some (.num x)) = "#34D399" := by
      simp [customizedBg, JNum.gtQ, h1, h3, h4]
    rw [this]
    decide

lemma customizedBg_neutral (x : ℚ) (h : x = 0) :
    customizedBg (some (.num x)) = "#4B5563" := by
  subst h
  norm_num [customizedBg, JNum.gtQ, JNum.eqQ]

lemma customizedBg_negBand (x : ℚ) (h1 : -3 < x) (h2 : x < 0) :
    rechartsBucket (customizedBg (some (.num x))) = .neg := by
  have h3 : ¬(3 < x) := by linarith
  have h3' : ¬(1 < x) := by linarith
  have h4 : ¬(0 < x) := by linarith
  have h5 : ¬(x = 0) := ne_of_lt h2
  by_cases h6 : -1 < x
  · have : customizedBg (some (.num x)) = "#F87171" := by
      simp [customizedBg, JNum.gtQ, JNum.eqQ, h3, h3', h4, h5, h6]
    rw [this]
    decide
  · have : customizedBg (some (.num x)) = "#EF4444" := by
      simp [customizedBg, JNum.gtQ, JNum.eqQ, h1, h3, h3', h4, h5, h6]
    rw [this]
    decide

lemma customizedBg_strongNeg (x : ℚ) (h : x ≤ -3) :
    customizedBg (some (.num x)) = "#DC2626" := by
  have h3 : ¬(3 < x) := by linarith
  have h3' : ¬(1 < x) := by linarith
  have h4 : ¬(0 < x) := by linarith
  have h5 : ¬(x = 0) := by intro h0; rw [h0] at h; norm_num at h
  have h6 : ¬(-1 < x) := by intro h0; linarith
  have h7 : ¬(-3 < x) := not_lt.mpr h
  simp [customizedBg, JNum.gtQ, JNum.eqQ, h3, h3', h4, h5, h6, h7]

lemma sum_map_widthShare (l : List ℚ) (c : ℚ) :
    (l.map (fun w => w / c * 100 * (3 / 2))).sum = l.sum / c * 150 := by
  induction l with
  | nil => simp
  | cons x xs ih =>
    simp only [List.map_cons, List.sum_cons, ih]
    ring

lemma buildBoxes_width_sum (data : List MarketItem) :
    ((buildBoxes data).map SectorBox.cssWidthPercent).sum
      = totalMarketWeight data / totalMarketWeight data * 150 := by
  unfold buildBoxes
  rw [List.map_map]
  have hperm :
      List.Perm
        ((List.insertionSort rSec (groupBySector data)).map
          (fun b : Bucket => b.weight / totalMarketWeight data * 100 * (3 / 2)))
        ((groupBySector data).map
          (fun b : Bucket => b.weight / totalMarketWeight data * 100 * (3 / 2))) :=
    (List.perm_insertionSort rSec (groupBySector data)).map _
  have hsum := hperm.sum_eq
  have hcomp :
      (List.insertionSort rSec (groupBySector data)).map
          (SectorBox.cssWidthPercent ∘ fun b =>
            { name := b.name
              cssWidthPercent := b.weight / totalMarketWeight data * 100 * (3 / 2)
              flexGrow := b.weight
              cells := (List.insertionSort rItem b.items).map (fun i =>
                { ticker := i.ticker
                  widthPercent := i.weight / b.weight * 100
                  flexGrow := i.weight
                  color := getBgColor i.change_percent }) })
        = (List.insertionSort rSec (groupBySector data)).map
            (fun b : Bucket => b.weight / totalMarketWeight data * 100 * (3 / 2)) := by
    simp
  rw [hcomp, hsum]
  have hmm : (groupBySector data).map
        (fun b : Bucket => b.weight / totalMarketWeight data * 100 * (3 / 2))
      = ((groupBySector data).map Bucket.weight).map
          (fun w => w / totalMarketWeight data * 100 * (3 / 2)) := by
    rw [List.map_map]
    rfl
  rw [hmm, sum_map_widthShare]
  rfl

lemma buildBoxes_sector_weights_sorted (data : List MarketItem) :
    ((buildBoxes data).map SectorBox.flexGrow).Pairwise (fun a b => b ≤ a) := by
  unfold buildBoxes
  rw [List.map_map, List.pairwise_map]
  have hs := List.sorted_insertionSort rSec (groupBySector data)
  exact hs

lemma buildBoxes_cells_sorted (data : List MarketItem) (box : SectorBox)
    (h : box ∈ buildBoxes data) :
    (box.cells.map ItemCell.flexGrow).Pairwise (fun a b => b ≤ a) := by
  unfold buildBoxes at h
  obtain ⟨b, _, rfl⟩ := List.mem_map.mp h
  simp only [List.map_map, List.pairwise_map]
  have hs := List.sorted_insertionSort rItem b.items
  exact hs

lemma buildBoxes_cell_of_mem (data : List MarketItem) (i : MarketItem) (h : i ∈ data) :
    ∃ box ∈ buildBoxes data, ∃ c ∈ box.cells,
      c.ticker = i.ticker ∧ c.flexGrow = i.weight ∧
        c.color = getBgColor i.change_percent := by
  obtain ⟨b, hb, hbi, _⟩ := groupBySector_mem data i h
  have hb' : b ∈ List.insertionSort rSec (groupBySector data) :=
    (List.mem_insertionSort rSec).mpr hb
  have hi' : i ∈ List.insertionSort rItem b.items :=
    (List.mem_insertionSort rItem).mpr hbi
  refine ⟨_, List.mem_map_of_mem _ hb', ?_⟩
  exact ⟨_, List.mem_map_of_mem _ hi', rfl, rfl, rfl⟩

def exZeta : MarketItem := ⟨"ZZT", .num 1, 10, 10, some "Zeta"⟩

def exAlpha : MarketItem := ⟨"AAT", .num 1, 10, 10, some "Alpha"⟩

def exTieZ : MarketItem := ⟨"ZZ", .num 1, 10, 7, some "Tech"⟩

def exTieA : MarketItem := ⟨"AA", .num 1, 10, 7, some "Tech"⟩

def exEmptySector : MarketItem := ⟨"EMP", .num 0, 1, 5, some ""⟩

def exNeg : MarketItem := ⟨"NEG", .num 0, 1, -5, some "Tech"⟩

def exPos : MarketItem := ⟨"POS", .num 0, 1, 10, some "Tech"⟩

def exDatum : RechartsDatum := ⟨"AAPL", .num 2, 190, 60⟩

def exTechBox : SectorBox := ⟨"Tech", 90, 60, [⟨"AAPL", 100, 60, "bg-[#147a61]"⟩]⟩

/-- C1, amended: the categorized component computes weight-proportional
sector widths, not a rectangle partition of the canvas.  Each rendered
sector width is sectorWeight / total * 100 * 1.5, so widths are
proportional to sector weight, but whenever the total weight is nonzero
they sum to 150 percent of the canvas, not to the canvas extent 100. -/
theorem claim_C1_sector_widths (data : List MarketItem)
    (h : totalMarketWeight data ≠ 0) :
    ((buildBoxes data).map SectorBox.cssWidthPercent).sum = 150 ∧
    ∀ box ∈ buildBoxes data,
      box.cssWidthPercent = box.flexGrow / totalMarketWeight data * 150 := by
  constructor
  · rw [buildBoxes_width_sum, div_self h]
    norm_num
  · intro box hbox
    unfold buildBoxes at hbox
    obtain ⟨b, _, rfl⟩ := List.mem_map.mp hbox
    show b.weight / totalMarketWeight data * 100 * (3 / 2)
        = b.weight / totalMarketWeight data * 150
    ring

/-- C1 witness: the end-to-end two-sector input has nonzero total weight,
and its rendered sector widths sum to 150. -/
theorem claim_C1_sector_widths_witness :
    totalMarketWeight [exTech, exEnergy] ≠ 0 ∧
    ((buildBoxes [exTech, exEnergy]).map SectorBox.cssWidthPercent).sum = 150 := by
  have ht : totalMarketWeight [exTech, exEnergy] ≠ 0 := by
    simp [totalMarketWeight, groupBySector, insertItem, sectorKey, exTech, exEnergy]
    norm_num
  exact ⟨ht, (claim_C1_sector_widths [exTech, exEnergy] ht).1⟩

/-- C1 counterexample: on the end-to-end input [AAPL w 60 Tech, XOM w 40
Energy] the code renders sector widths [90, 60], not the claimed extents
[60, 40], and the widths sum to 150, not to the canvas extent 100. -/
theorem claim_C1_cex :
    (buildBoxes [exTech, exEnergy]).map SectorBox.cssWidthPercent = [90, 60] ∧
    (buildBoxes [exTech, exEnergy]).map SectorBox.cssWidthPercent ≠ [60, 40] ∧
    ((buildBoxes [exTech, exEnergy]).map SectorBox.cssWidthPercent).sum ≠ 100 := by
  have hval : (buildBoxes [exTech, exEnergy]).map SectorBox.cssWidthPercent = [90, 60] := by
    simp [buildBoxes, totalMarketWeight, groupBySector, insertItem, sectorKey,
      List.insertionSort, List.orderedInsert, rSec, exTech, exEnergy]
    norm_num
  refine ⟨hval, ?_, ?_⟩
  · rw [hval]
    intro hcontra
    simp at hcontra
  · rw [hval]
    norm_num

/-- C2, amended: both color mappers are total over all inputs and agree
with the claimed buckets everywhere except the two boundary cases the
code decides differently: changePercent equal to -3 takes the final else
branch (strong-negative, not negative), and NaN, failing every
comparison, also takes the final else branch (strong-negative, not
neutral). -/
theorem claim_C2_color_buckets :
    (∀ x : ℚ,
      (3 < x → finvizBucket (getBgColor (.num x)) = .strongPos ∧
        rechartsBucket (customizedBg (some (.num x))) = .strongPos) ∧
      (0 < x → x ≤ 3 → finvizBucket (getBgColor (.num x)) = .pos ∧
        rechartsBucket (customizedBg (some (.num x))) = .pos) ∧
      (x = 0 → finvizBucket (getBgColor (.num x)) = .neutral ∧
        rechartsBucket (customizedBg (some (.num x))) = .neutral) ∧
      (-3 < x → x < 0 → finvizBucket (getBgColor (.num x)) = .neg ∧
        rechartsBucket (customizedBg (some (.num x))) = .neg) ∧
      (x ≤ -3 → finvizBucket (getBgColor (.num x)) = .strongNeg ∧
        rechartsBucket (customizedBg (some (.num x))) = .strongNeg)) ∧
    finvizBucket (getBgColor .nan) = .strongNeg ∧
    rechartsBucket (customizedBg (some .nan)) = .strongNeg := by
  refine ⟨fun x => ⟨?_, ?_, ?_, ?_, ?_⟩, by decide, by decide⟩
  · intro h
    rw [getBgColor_strongPos x h, customizedBg_strongPos x h]
    exact ⟨by decide, by decide⟩
  · intro h1 h2
    rw [getBgColor_posBand x h1 h2]
    exact ⟨by decide, customizedBg_posBand x h1 h2⟩
  · intro h
    rw [getBgColor_neutral x h, customizedBg_neutral x h]
    exact ⟨by decide, by decide⟩
  · intro h1 h2
    rw [getBgColor_negBand x h1 h2]
    exact ⟨by decide, customizedBg_negBand x h1 h2⟩
  · intro h
    rw [getBgColor_strongNeg x h, customizedBg_strongNeg x h]
    exact ⟨by decide, by decide⟩

/-- C2 witness: the amended bucket facts at concrete inputs 5, 2, 0, -1
and -4. -/
theorem claim_C2_color_buckets_witness :
    finvizBucket (getBgColor (.num 5)) = .strongPos ∧
    finvizBucket (getBgColor (.num 2)) = .pos ∧
    finvizBucket (getBgColor (.num 0)) = .neutral ∧
    finvizBucket (getBgColor (.num (-1))) = .neg ∧
    finvizBucket (getBgColor (.num (-4))) = .strongNeg :=
  ⟨((claim_C2_color_buckets.1 5).1 (by norm_num)).1,
    ((claim_C2_color_buckets.1 2).2.1 (by norm_num) (by norm_num)).1,
    ((claim_C2_color_buckets.1 0).2.2.1 rfl).1,
    ((claim_C2_color_buckets.1 (-1)).2.2.2.1 (by norm_num) (by norm_num)).1,
    ((claim_C2_color_buckets.1 (-4)).2.2.2.2 (by norm_num)).1⟩

/-- C2 counterexample: NaN lands in the dark-red strong-sell branch of
getBgColor, not the neutral gray, and the recharts mapper sends NaN to
red-600; changePercent equal to -3 also lands in the strong-sell branch
although the claim places it in the negative band. -/
theorem claim_C2_cex :
    getBgColor .nan = "bg-[#5c131a]" ∧
    finvizBucket (getBgColor .nan) ≠ .neutral ∧
    rechartsBucket (customizedBg (some .nan)) ≠ .neutral ∧
    getBgColor (.num (-3)) = "bg-[#5c131a]" ∧
    finvizBucket (getBgColor (.num (-3))) ≠ .neg := by
  refine ⟨by decide, by decide, by decide, by decide, by decide⟩

/-- C3, amended: sectors are rendered in descending order of total
weight and the members of each sector in descending order of weight, but
ties are broken by the stable sort order (first appearance in the input),
not by sector name or ticker. -/
theorem claim_C3_sorted (data : List MarketItem) :
    ((buildBoxes data).map SectorBox.flexGrow).Pairwise (fun a b => b ≤ a) ∧
    ∀ box ∈ buildBoxes data,
      (box.cells.map ItemCell.flexGrow).Pairwise (fun a b => b ≤ a) :=
  ⟨buildBoxes_sector_weights_sorted data,
    fun box h => buildBoxes_cells_sorted data box h⟩

/-- C3 witness: the cells of the Tech box of the end-to-end input are
sorted descending by weight. -/
theorem claim_C3_sorted_witness :
    (exTechBox.cells.map ItemCell.flexGrow).Pairwise (fun a b => b ≤ a) := by
  have hmem : exTechBox ∈ buildBoxes [exTech, exEnergy] := by
    simp [buildBoxes, totalMarketWeight, groupBySector, insertItem, sectorKey,
      List.insertionSort, List.orderedInsert, rSec, rItem, exTech, exEnergy,
      exTechBox, getBgColor, JNum.gtQ]
    norm_num
  exact (claim_C3_sorted [exTech, exEnergy]).2 exTechBox hmem

/-- C3 counterexample: two sectors of equal total weight keep their
first-appearance order Zeta before Alpha, not the name-ascending order,
and two equal-weight members of one sector keep input order ZZ before
AA, not ticker-ascending order. -/
theorem claim_C3_cex :
    (buildBoxes [exZeta, exAlpha]).map SectorBox.name = ["Zeta", "Alpha"] ∧
    (buildBoxes [exZeta, exAlpha]).map SectorBox.name ≠ ["Alpha", "Zeta"] ∧
    (buildBoxes [exTieZ, exTieA]).map (fun b => b.cells.map ItemCell.ticker)
      = [["ZZ", "AA"]] ∧
    (buildBoxes [exTieZ, exTieA]).map (fun b => b.cells.map ItemCell.ticker)
      ≠ [["AA", "ZZ"]] := by
  have h1 : (buildBoxes [exZeta, exAlpha]).map SectorBox.name = ["Zeta", "Alpha"] := by
    simp [buildBoxes, totalMarketWeight, groupBySector, insertItem, sectorKey,
      List.insertionSort, List.orderedInsert, rSec, exZeta, exAlpha]
  have h2 : (buildBoxes [exTieZ, exTieA]).map (fun b => b.cells.map ItemCell.ticker)
      = [["ZZ", "AA"]] := by
    simp [buildBoxes, totalMarketWeight, groupBySector, insertItem, sectorKey,
      List.insertionSort, List.orderedInsert, rSec, rItem, exTieZ, exTieA]
  refine ⟨h1, by rw [h1]; decide, h2, by rw [h2]; decide⟩

/-- C4, amended: every input item lands in exactly one bucket, the
bucket's accumulated weight is the sum of its member weights, and the
bucket's name is the item's grouping key sectorKey, which equals the
item's sector when that sector is present and non-empty and is "Others"
both when the sector is absent and when it is the empty string. -/
theorem claim_C4_grouping (data : List MarketItem) :
    (∀ i ∈ data, ∃ b ∈ groupBySector data, i ∈ b.items ∧ b.name = sectorKey i ∧
      ∀ b' ∈ groupBySector data, i ∈ b'.items → b' = b) ∧
    ∀ b ∈ groupBySector data, b.weight = (b.items.map MarketItem.weight).sum := by
  constructor
  · intro i hi
    obtain ⟨b, hb, hbi, hbn⟩ := groupBySector_mem data i hi
    exact ⟨b, hb, hbi, hbn,
      fun b' hb' hb'i => groupBySector_unique data i b' b hb' hb hb'i hbi⟩
  · intro b hb
    exact ((groupBySector_groupWF data).2 b hb).1

/-- C4 witness: the two-sector input, applied at AAPL. -/
theorem claim_C4_grouping_witness :
    ∃ b ∈ groupBySector [exTech, exEnergy], exTech ∈ b.items ∧
      b.name = sectorKey exTech ∧
      ∀ b' ∈ groupBySector [exTech, exEnergy], exTech ∈ b'.items → b' = b :=
  (claim_C4_grouping [exTech, exEnergy]).1 exTech (by simp)

/-- C4 counterexample: an item whose sector is present but equal to the
empty string is put in a bucket named "Others", which is neither the
item's sector nor the result of an absent sector. -/
theorem claim_C4_cex :
    (groupBySector [exEmptySector]).map Bucket.name = ["Others"] ∧
    exEmptySector.sector = some "" ∧
    ("Others" : String) ≠ "" := by
  refine ⟨by decide, rfl, by decide⟩

/-- C5, amended: the component performs no weight sanitization.  Every
input item, including one of zero or negative weight, is pushed into its
sector bucket, receives a rendered cell, and its weight is counted in the
accumulated sector weight (the sum over all members). -/
theorem claim_C5_no_sanitization (data : List MarketItem) (i : MarketItem)
    (hi : i ∈ data) (_hw : i.weight ≤ 0) :
    (∃ box ∈ buildBoxes data, ∃ c ∈ box.cells,
      c.ticker = i.ticker ∧ c.flexGrow = i.weight) ∧
    ∃ b ∈ groupBySector data, i ∈ b.items ∧
      b.weight = (b.items.map MarketItem.weight).sum := by
  constructor
  · obtain ⟨box, hbox, c, hc, ht, hf, _⟩ := buildBoxes_cell_of_mem data i hi
    exact ⟨box, hbox, c, hc, ht, hf⟩
  · obtain ⟨b, hb, hbi, _⟩ := groupBySector_mem data i hi
    exact ⟨b, hb, hbi, ((groupBySector_groupWF data).2 b hb).1⟩

/-- C5 witness: the weight -5 item NEG still gets a rendered cell. -/
theorem claim_C5_no_sanitization_witness :
    ∃ box ∈ buildBoxes [exNeg, exPos], ∃ c ∈ box.cells,
      c.ticker = exNeg.ticker ∧ c.flexGrow = exNeg.weight :=
  (claim_C5_no_sanitization [exNeg, exPos] exNeg (by simp)
    (by norm_num [exNeg])).1

/-- C5 counterexample: with items NEG of weight -5 and POS of weight 10
in one sector, the weight -5 item is rendered as a cell and the sector
total weight is 5, so the nonpositive-weight item was neither dropped
nor excluded from the total. -/
theorem claim_C5_cex :
    (buildBoxes [exNeg, exPos]).map (fun b => b.cells.map ItemCell.ticker)
      = [["POS", "NEG"]] ∧
    exNeg.weight ≤ 0 ∧
    (groupBySector [exNeg, exPos]).map Bucket.weight = [5] := by
  refine ⟨?_, by norm_num [exNeg], ?_⟩
  · simp [buildBoxes, totalMarketWeight, groupBySector, insertItem, sectorKey,
      List.insertionSort, List.orderedInsert, rSec, rItem, exNeg, exPos]
    norm_num
  · simp [groupBySector, insertItem, sectorKey, exNeg, exPos]
    norm_num

/-- C6: absent or empty data renders the no-data banner and nothing
else does; every non-empty input renders the sector tree. -/
theorem claim_C6_no_data (d : Option (List MarketItem)) :
    (marketMap d = .noData ↔ d = none ∨ d = some []) ∧
    ∀ i rest, marketMap (some (i :: rest)) = .tree (buildBoxes (i :: rest)) := by
  constructor
  · match d with
    | none => simp [marketMap]
    | some [] => simp [marketMap]
    | some (i :: rest) => simp [marketMap]
  · intro i rest
    rfl

/-- C6 witness: the no-data banner at the two empty inputs, the tree at
a singleton input. -/
theorem claim_C6_no_data_witness :
    marketMap (some []) = .noData ∧ marketMap none = .noData ∧
    marketMap (some [exTech]) = .tree (buildBoxes [exTech]) :=
  ⟨(claim_C6_no_data (some [])).1.mpr (Or.inr rfl),
    (claim_C6_no_data none).1.mpr (Or.inl rfl),
    (claim_C6_no_data (some [exTech])).2 exTech []⟩

/-- C7: the render pass, with every mutating array operation acting on
the state field holding the array it mutates, leaves the caller's data
array (hence each item value in it) unchanged, and produces the same
rendered result as the pure component function. -/
theorem claim_C7_no_mutation (callerData : List MarketItem) :
    (runLayoutPass callerData).data = callerData ∧
    (runLayoutPass callerData).rendered = marketMap (some callerData) :=
  ⟨rfl, rfl⟩

/-- C8: the layout computation is a pure function of the input snapshot:
two runs on equal inputs produce equal rendered trees, including all
computed sizes and colors. -/
theorem claim_C8_deterministic (d1 d2 : Option (List MarketItem)) (h : d1 = d2) :
    marketMap d1 = marketMap d2 := by
  rw [h]

/-- C8 witness: two runs on the end-to-end input agree. -/
theorem claim_C8_deterministic_witness :
    marketMap (some [exTech, exEnergy]) = marketMap (some [exTech, exEnergy]) :=
  claim_C8_deterministic _ _ rfl

/-- C9, amended: for a non-empty hover payload the tooltip renders
exactly three paragraphs from the hovered datum: its name (ticker), its
price, and its change percent; the datum carries no sector field and no
sector is shown.  An absent or empty payload renders nothing. -/
theorem claim_C9_tooltip (d : RechartsDatum) (rest : List RechartsDatum) :
    tooltipContent (some (d :: rest))
      = some [.title d.name, .priceLine d.price, .changeLine d.change_percent] ∧
    tooltipContent (some []) = none ∧ tooltipContent none = none :=
  ⟨rfl, rfl, rfl⟩

/-- C9 counterexample: hovering the concrete AAPL datum renders exactly
the three paragraphs name, price and change percent, so the four-field
tooltip of the claim (which includes the sector) is not what is shown. -/
theorem claim_C9_cex :
    tooltipContent (some [exDatum])
      = some [.title "AAPL", .priceLine 190, .changeLine (.num 2)] ∧
    (tooltipContent (some [exDatum])).map List.length = some 3 :=
  ⟨rfl, rfl⟩

/-- C10: an item whose sector is the empty string is grouped into the
bucket named "Others". -/
theorem claim_C10_empty_sector (data : List MarketItem) (i : MarketItem)
    (hi : i ∈ data) (hs : i.sector = some "") :
    ∃ b ∈ groupBySector data, i ∈ b.items ∧ b.name = "Others" := by
  obtain ⟨b, hb, hbi, hbn⟩ := groupBySector_mem data i hi
  refine ⟨b, hb, hbi, ?_⟩
  rw [hbn]
  simp [sectorKey, hs]

/-- C10 witness: the empty-string-sector item EMP lands in "Others". -/
theorem claim_C10_empty_sector_witness :
    ∃ b ∈ groupBySector [exEmptySector], exEmptySector ∈ b.items ∧
      b.name = "Others" :=
  claim_C10_empty_sector [exEmptySector] exEmptySector (by simp) rfl
